import Mathlib

/-!
Verification of the logiCLK clock-generator parameter engine
(src/kernel_src/drivers/clk/clk-logiclk.c).

The C driver is shallowly embedded: u32/u64 arithmetic is modelled on ℕ
with explicit reductions modulo 2^32 / 2^64 at the operations where the C
code can wrap, signed phase values are modelled on ℤ, and the driver state
(struct logiclk_data) is a Lean structure.  Definitions keep the names of
the C functions they embed.  div_u64 is modelled by truncating natural
division (which is total, returning 0 for a zero divisor).
-/

set_option maxHeartbeats 1000000
set_option maxRecDepth 8000

/-- Constant LOGICLK_FRACTION_PRECISION from the source. -/
def LOGICLK_FRACTION_PRECISION : ℕ := 10

/-- Embedding of logiclk_get_bits: unsigned bit slice [lsb, msb] of the input,
computed exactly as the C does with a shift and a mask. -/
def logiclk_get_bits (input : ℕ) (msb lsb : ℕ) : ℕ :=
  (input >>> lsb) &&& ((1 <<< (msb - lsb + 1)) - 1)

/-- Embedding of logiclk_round_fraction: round-half-up at the given fractional
precision of a value carrying 10 fractional bits.  The u32 addition is
reduced modulo 2^32 as in the C code. -/
def logiclk_round_fraction (decimal precision : ℕ) : ℕ :=
  let prec := 1 <<< (LOGICLK_FRACTION_PRECISION - precision - 1)
  if decimal &&& prec ≠ 0 then (decimal + prec) % 2 ^ 32 else decimal

/-- Fields computed by logiclk_pll_div before packing, in source order:
low_time, high_time, no_count, edge. -/
structure DivFields where
  low_time : ℕ
  high_time : ℕ
  no_count : ℕ
  edge : ℕ
deriving DecidableEq

/-- Embedding of the body of logiclk_pll_div up to (but excluding) the final
packing expression.  The u32 operations that can wrap (the duty shift and the
low_time subtraction) are reduced modulo 2^32. -/
def logiclk_pll_div_fields (divide duty : ℕ) : DivFields :=
  let duty_fix := duty * 2 ^ LOGICLK_FRACTION_PRECISION % 2 ^ 32 / 100000
  if divide = 1 then
    ⟨1, 1, 1, 0⟩
  else
    let temp := logiclk_round_fraction (duty_fix * divide % 2 ^ 32) 1
    let edge := logiclk_get_bits temp (LOGICLK_FRACTION_PRECISION - 1)
      (LOGICLK_FRACTION_PRECISION - 1)
    let high_time := logiclk_get_bits temp (LOGICLK_FRACTION_PRECISION + 6)
      LOGICLK_FRACTION_PRECISION
    let edge1 := if high_time = 0 then 0 else edge
    let high_time1 := if high_time = 0 then 1 else high_time
    let edge2 := if high_time1 = divide then 1 else edge1
    let high_time2 := if high_time1 = divide then divide - 1 else high_time1
    let low_time := (divide + 2 ^ 32 - high_time2) % 2 ^ 32
    ⟨low_time, high_time2, 0, edge2⟩

/-- Embedding of logiclk_pll_div: the fields packed exactly as in the final
return expression of the C function. -/
def logiclk_pll_div (divide duty : ℕ) : ℕ :=
  let f := logiclk_pll_div_fields divide duty
  (f.low_time &&& 0x3F) ||| ((f.high_time &&& 0x3F) <<< 6) |||
    ((f.no_count &&& 0x1) <<< 12) ||| ((f.edge &&& 0x1) <<< 13)

/-- Embedding of logiclk_pll_phase.  The signed phase is an integer; the C
function is defined (no signed overflow) for the device phase range
-360000..360000 millidegrees, on which this embedding agrees with it.  The
u32 multiplication by the divider is reduced modulo 2^32 as in the C code,
and MMCM_PHASE_MAX / 1000 = 360. -/
def logiclk_pll_phase (divide : ℕ) (phase : ℤ) : ℕ :=
  let phase_fixed : ℕ :=
    if phase < 0 then
      (phase + 360000).toNat * 2 ^ LOGICLK_FRACTION_PRECISION / 1000
    else
      phase.toNat * 2 ^ LOGICLK_FRACTION_PRECISION / 1000
  let phase_cycles := phase_fixed * divide % 2 ^ 32 / 360
  let temp := logiclk_round_fraction phase_cycles 3
  let delay_time := logiclk_get_bits temp (LOGICLK_FRACTION_PRECISION + 5)
    LOGICLK_FRACTION_PRECISION
  let phase_mux := logiclk_get_bits temp (LOGICLK_FRACTION_PRECISION - 1)
    (LOGICLK_FRACTION_PRECISION - 3)
  (delay_time &&& 0x3F) ||| ((phase_mux &&& 0x7) <<< 6)

/-- Embedding of logiclk_pll_count: the interleaved 32-bit count word built
from the packed divide word and the packed phase word. -/
def logiclk_pll_count (divide duty : ℕ) (phase : ℤ) : ℕ :=
  let pll_div := logiclk_pll_div divide duty
  let pll_phase := logiclk_pll_phase divide phase
  logiclk_get_bits pll_div 11 0 |||
    (logiclk_get_bits pll_phase 8 6 <<< 13) |||
    (logiclk_get_bits pll_phase 5 0 <<< 16) |||
    (logiclk_get_bits pll_div 13 12 <<< 22) |||
    (logiclk_get_bits pll_phase 10 9 <<< 24)

/-- Static table lut_high of logiclk_pll_lut_filter (64 entries). -/
def lut_high : List ℕ :=
  [0x17C, 0x3FC, 0x3F4, 0x3E4, 0x3F8, 0x3C4, 0x3C4, 0x3D8,
   0x3E8, 0x3E8, 0x3E8, 0x3B0, 0x3F0, 0x3F0, 0x3F0, 0x3F0,
   0x3F0, 0x3F0, 0x3F0, 0x3F0, 0x3B0, 0x3B0, 0x3B0, 0x3E8,
   0x370, 0x308, 0x370, 0x370, 0x3E8, 0x3E8, 0x3E8, 0x1C8,
   0x330, 0x330, 0x3A8, 0x188, 0x188, 0x188, 0x1F0, 0x188,
   0x110, 0x110, 0x110, 0x110, 0x110, 0x110, 0xE0, 0xE0,
   0xE0, 0xE0, 0xE0, 0xE0, 0xE0, 0xE0, 0xE0, 0xE0,
   0xE0, 0xE0, 0xE0, 0xE0, 0xE0, 0xE0, 0xE0, 0xE0]

/-- Static table lut_low of logiclk_pll_lut_filter (64 entries). -/
def lut_low : List ℕ :=
  [0x5F, 0x57, 0x7B, 0x5B, 0x6B, 0x73, 0x73, 0x73,
   0x73, 0x4B, 0x4B, 0x4B, 0xB3, 0x53, 0x53, 0x53,
   0x53, 0x53, 0x53, 0x53, 0x53, 0x53, 0x53, 0x63,
   0x63, 0x63, 0x63, 0x63, 0x63, 0x63, 0x63, 0x63,
   0x63, 0x63, 0x63, 0x63, 0x63, 0x93, 0x93, 0x93,
   0x93, 0x93, 0x93, 0x93, 0x93, 0x93, 0x93, 0xA3,
   0xA3, 0xA3, 0xA3, 0xA3, 0xA3, 0xA3, 0xA3, 0xA3,
   0xA3, 0xA3, 0xA3, 0xA3, 0xA3, 0xA3, 0xA3, 0xA3]

/-- Static table lut of logiclk_pll_lut_lock (64 entries of 40-bit values). -/
def lut_lock : List ℕ :=
  [0x31BE8FA401, 0x31BE8FA401, 0x423E8FA401, 0x5AFE8FA401,
   0x73BE8FA401, 0x8C7E8FA401, 0x9CFE8FA401, 0xB5BE8FA401,
   0xCE7E8FA401, 0xE73E8FA401, 0xFFF84FA401, 0xFFF39FA401,
   0xFFEEEFA401, 0xFFEBCFA401, 0xFFE8AFA401, 0xFFE71FA401,
   0xFFE3FFA401, 0xFFE26FA401, 0xFFE0DFA401, 0xFFDF4FA401,
   0xFFDDBFA401, 0xFFDC2FA401, 0xFFDA9FA401, 0xFFD90FA401,
   0xFFD90FA401, 0xFFD77FA401, 0xFFD5EFA401, 0xFFD5EFA401,
   0xFFD45FA401, 0xFFD45FA401, 0xFFD2CFA401, 0xFFD2CFA401,
   0xFFD2CFA401, 0xFFD13FA401, 0xFFD13FA401, 0xFFD13FA401,
   0xFFCFAFA401, 0xFFCFAFA401, 0xFFCFAFA401, 0xFFCFAFA401,
   0xFFCFAFA401, 0xFFCFAFA401, 0xFFCFAFA401, 0xFFCFAFA401,
   0xFFCFAFA401, 0xFFCFAFA401, 0xFFCFAFA401, 0xFFCFAFA401,
   0xFFCFAFA401, 0xFFCFAFA401, 0xFFCFAFA401, 0xFFCFAFA401,
   0xFFCFAFA401, 0xFFCFAFA401, 0xFFCFAFA401, 0xFFCFAFA401,
   0xFFCFAFA401, 0xFFCFAFA401, 0xFFCFAFA401, 0xFFCFAFA401,
   0xFFCFAFA401, 0xFFCFAFA401, 0xFFCFAFA401, 0xFFCFAFA401]

/-- Embedding of logiclk_pll_lut_filter: the C function indexes the selected
table at position divide - 1 (an out-of-range C access is modelled by the
default value 0; all in-driver uses are in range). -/
def logiclk_pll_lut_filter (divide : ℕ) (bw_high : Bool) : ℕ :=
  if bw_high then lut_high.getD (divide - 1) 0 else lut_low.getD (divide - 1) 0

/-- Embedding of logiclk_pll_lut_lock: the lock table indexed at divide - 1. -/
def logiclk_pll_lut_lock (divide : ℕ) : ℕ :=
  lut_lock.getD (divide - 1) 0

/-- Value of ((u64)-1), the initial frequency error of both searches. -/
def u64max : ℕ := 2 ^ 64 - 1

/-- Embedding of the kernel abs64 applied to a u64 value: reinterpret the
64-bit value as a signed two's-complement number and take its absolute
value (the result of abs64(INT64_MIN) wraps back to 2^63). -/
def abs64 (v : ℕ) : ℕ :=
  if v < 2 ^ 63 then v else 2 ^ 64 - v

/-- Embedding of abs64((a - b)) on u64 operands: the wrapped u64 difference
fed through abs64. -/
def freqErr (a b : ℕ) : ℕ :=
  abs64 ((a + 2 ^ 64 - b) % 2 ^ 64)

/-- State of the best-so-far accumulator of logiclk_pll_input_mult_div:
the stored multiplier, the stored pre-divider, and the current freq_err. -/
structure SearchAcc where
  mult : ℕ
  div : ℕ
  err : ℕ
deriving DecidableEq

/-- Enumeration order of the triple loop of logiclk_pll_input_mult_div:
divclk_divide 1..56 outermost, clkfbout_mult 2..64 in the middle,
clkout_divide 1..128 innermost. -/
def searchTriples : List (ℕ × ℕ × ℕ) :=
  (List.range' 1 56).flatMap fun divclk_divide =>
    (List.range' 2 63).flatMap fun clkfbout_mult =>
      (List.range' 1 128).map fun clkout_divide =>
        (divclk_divide, clkfbout_mult, clkout_divide)

/-- VCO frequency of a candidate triple (pre-divider, multiplier, out-divider):
div_u64(clk_freq_input * clkfbout_mult, divclk_divide). -/
def searchVco (clk_freq_input : ℕ) (t : ℕ × ℕ × ℕ) : ℕ :=
  clk_freq_input * t.2.1 / t.1

/-- Loop body of logiclk_pll_input_mult_div over the remaining candidate
triples: skip candidates whose VCO frequency falls outside
[600 MHz, 1600 MHz], update the best-so-far on strict error improvement and
return immediately on an exact match. -/
def searchLoop (clkin target : ℕ) : List (ℕ × ℕ × ℕ) → SearchAcc → SearchAcc
  | [], acc => acc
  | t :: rest, acc =>
    let clk_freq := searchVco clkin t
    if clk_freq < 600000000 ∨ 1600000000 < clk_freq then
      searchLoop clkin target rest acc
    else
      let e := freqErr (clk_freq / t.2.2) target
      if e < acc.err then
        if e = 0 then ⟨t.2.1, t.1, e⟩
        else searchLoop clkin target rest ⟨t.2.1, t.1, e⟩
      else searchLoop clkin target rest acc

/-- Final accumulator of the triple loop, started from the cleared state
clkfbout_mult = 0, divclk_divide = 0, freq_err = (u64)-1. -/
def searchResult (clkin target : ℕ) : SearchAcc :=
  searchLoop clkin target searchTriples ⟨0, 0, u64max⟩

/-- One iteration of the triple loop without the early exact-match return
(used to relate the loop to a List.foldl; the early return only skips
iterations that can no longer change the accumulator). -/
def searchStepF (clkin target : ℕ) (acc : SearchAcc) (t : ℕ × ℕ × ℕ) :
    SearchAcc :=
  let clk_freq := searchVco clkin t
  if clk_freq < 600000000 ∨ 1600000000 < clk_freq then acc
  else
    let e := freqErr (clk_freq / t.2.2) target
    if e < acc.err then ⟨t.2.1, t.1, e⟩ else acc

/-- Specification-side feasibility test, following the specification text:
a candidate is considered only when its VCO frequency lies in
[600 MHz, 1600 MHz]. -/
def vcoOk (clkin : ℕ) (t : ℕ × ℕ × ℕ) : Bool :=
  decide (600000000 ≤ searchVco clkin t ∧ searchVco clkin t ≤ 1600000000)

/-- Specification-side absolute frequency error of a candidate:
the distance between floor(VCO / output_divider) and the target. -/
def errOf (clkin target : ℕ) (t : ℕ × ℕ × ℕ) : ℕ :=
  Nat.dist (searchVco clkin t / t.2.2) target

/-- Feasible candidates in enumeration order, per the specification text. -/
def feasibleList (clkin : ℕ) : List (ℕ × ℕ × ℕ) :=
  searchTriples.filter fun t => vcoOk clkin t

/-- Predicate selecting the candidates whose error equals a given value. -/
def errPred (clkin target e : ℕ) (t : ℕ × ℕ × ℕ) : Bool :=
  decide (errOf clkin target t = e)

/-- Specification-side description of the full search, written from the
specification sentences: fail exactly when no candidate satisfies the VCO
window, otherwise return the multiplier/pre-divider of the first candidate
in enumeration order attaining the minimal absolute error. -/
def specSearch (clkin target : ℕ) : Option (ℕ × ℕ) :=
  ((feasibleList clkin |>.map (errOf clkin target)).min?).bind fun e =>
    (feasibleList clkin |>.find? (errPred clkin target e)).map
      fun t => (t.2.1, t.1)

/-- Reduced step function over the feasible candidates only (the window test
already applied), with the code-side wrapped error replaced by the exact
distance. -/
def searchStep2 (clkin target : ℕ) (acc : SearchAcc) (t : ℕ × ℕ × ℕ) :
    SearchAcc :=
  if errOf clkin target t < acc.err then ⟨t.2.1, t.1, errOf clkin target t⟩
  else acc

/-- First-strict-improvement step on an optional best candidate. -/
def argStep (clkin target : ℕ) (o : Option (ℕ × ℕ × ℕ)) (t : ℕ × ℕ × ℕ) :
    Option (ℕ × ℕ × ℕ) :=
  match o with
  | none => some t
  | some t0 =>
    if errOf clkin target t < errOf clkin target t0 then some t else some t0

/-- Interpretation of an optional best candidate as a search accumulator. -/
def phi (clkin target : ℕ) : Option (ℕ × ℕ × ℕ) → SearchAcc
  | none => ⟨0, 0, u64max⟩
  | some t => ⟨t.2.1, t.1, errOf clkin target t⟩

/-- State of the best-so-far accumulator of logiclk_pll_output_div. -/
structure OutAcc where
  div : ℕ
  err : ℕ
deriving DecidableEq

/-- Loop body of logiclk_pll_output_div over the remaining candidate output
dividers: update the best-so-far on strict error improvement and return
immediately on an exact match. -/
def outLoop (fmd target : ℕ) : List ℕ → OutAcc → OutAcc
  | [], acc => acc
  | d :: rest, acc =>
    let e := freqErr (fmd / d) target
    if e < acc.err then
      if e = 0 then ⟨d, e⟩
      else outLoop fmd target rest ⟨d, e⟩
    else outLoop fmd target rest acc

/-- Embedding of logiclk_pll_output_div: restricted single-variable search
over clkout_divide 1..128 for a fixed reference, multiplier and pre-divider,
started from clkout_div = 0 and freq_err = (u64)-1. -/
def logiclk_pll_output_div (clk_freq clkfbout_mult divclk_divide freq_out :
    ℕ) : ℕ :=
  (outLoop (clk_freq * clkfbout_mult / divclk_divide) freq_out
    (List.range' 1 128) ⟨0, u64max⟩).div

/-- Embedding of struct logiclk_input. -/
structure LogiclkInput where
  clk_freq : ℕ
  clkfbout_mult : ℕ
  clkfbout_phase : ℤ
  divclk_divide : ℕ
  bw_high : Bool
deriving DecidableEq

/-- Embedding of struct logiclk_output (the engine-relevant fields: the hw
handle, device-tree node and back pointer are host glue). -/
structure LogiclkOutput where
  clkout_freq : ℕ
  clkout_divide : ℕ
  clkout_duty : ℕ
  clkout_phase : ℤ
  id : Fin 6
  precise : Bool
deriving DecidableEq

/-- Embedding of struct logiclk_data: the input stage, the six output
channels, the single-level parameter stack and the 21-word manual register
image with its stacked copy. -/
structure LogiclkData where
  input : LogiclkInput
  output : Fin 6 → LogiclkOutput
  output_stack : LogiclkOutput
  man_regs : Fin 21 → ℕ
  man_regs_stack : Fin 21 → ℕ

/-- Embedding of logiclk_pll_input_mult_div acting on the input stage:
the C function clears clkfbout_mult and divclk_divide, runs the triple
loop (updating them on every improvement), and returns an error exactly
when both remain zero.  The returned flag is true on success. -/
def logiclk_pll_input_mult_div (input : LogiclkInput) (freq_out : ℕ) :
    LogiclkInput × Bool :=
  let acc := searchResult input.clk_freq freq_out
  ({ input with clkfbout_mult := acc.mult, divclk_divide := acc.div },
    decide (¬(acc.mult = 0 ∨ acc.div = 0)))

/-- Index of the low per-output register of a channel: 1 + 2 * id. -/
def pairLo (id : Fin 6) : Fin 21 :=
  ⟨1 + 2 * id.val, by have := id.isLt; omega⟩

/-- Index of the high per-output register of a channel: 2 + 2 * id. -/
def pairHi (id : Fin 6) : Fin 21 :=
  ⟨2 + 2 * id.val, by have := id.isLt; omega⟩

/-- Embedding of logiclk_man_reg_params: recompute the constant enable mask
at register 0 and the shared registers 13..20 from the input stage and the
calling channel's duty and phase; all other registers keep their values. -/
def logiclk_man_reg_params (input : LogiclkInput) (output : LogiclkOutput)
    (regs : Fin 21 → ℕ) : Fin 21 → ℕ :=
  let clkfbout := logiclk_pll_count input.clkfbout_mult output.clkout_duty
    input.clkfbout_phase
  let divclk := logiclk_pll_count input.divclk_divide output.clkout_duty
    output.clkout_phase
  let filter := logiclk_pll_lut_filter (input.clkfbout_mult - 1) input.bw_high
  let lock := logiclk_pll_lut_lock (input.clkfbout_mult - 1)
  fun j =>
    if j = 0 then 0xFFFF
    else if j = 13 then
      (logiclk_get_bits divclk 23 22 <<< 12) ||| logiclk_get_bits divclk 11 0
    else if j = 14 then logiclk_get_bits clkfbout 15 0
    else if j = 15 then logiclk_get_bits clkfbout 31 16
    else if j = 16 then logiclk_get_bits lock 29 20
    else if j = 17 then
      (logiclk_get_bits lock 34 30 <<< 10) ||| logiclk_get_bits lock 9 0
    else if j = 18 then
      (logiclk_get_bits lock 39 35 <<< 10) ||| logiclk_get_bits lock 19 10
    else if j = 19 then
      (logiclk_get_bits filter 6 6 <<< 8) |||
        (logiclk_get_bits filter 8 7 <<< 11) |||
        (logiclk_get_bits filter 9 9 <<< 15)
    else if j = 20 then
      (logiclk_get_bits filter 0 0 <<< 4) |||
        (logiclk_get_bits filter 2 1 <<< 7) |||
        (logiclk_get_bits filter 4 3 <<< 11) |||
        (logiclk_get_bits filter 5 5 <<< 15)
    else regs j

/-- Embedding of logiclk_man_reg_params_id: rerun the restricted output
divider search for the channel, write the channel's count word into its two
per-output registers (indices 1 + 2 * id and 2 + 2 * id), and update the
channel's divider and achieved frequency. -/
def logiclk_man_reg_params_id (input : LogiclkInput) (output : LogiclkOutput)
    (id : Fin 6) (regs : Fin 21 → ℕ) : LogiclkOutput × (Fin 21 → ℕ) :=
  let clk_freq_mult_div := input.clk_freq * input.clkfbout_mult /
    input.divclk_divide
  let clkout_divide := logiclk_pll_output_div input.clk_freq
    input.clkfbout_mult input.divclk_divide output.clkout_freq
  let clkout := logiclk_pll_count clkout_divide output.clkout_duty
    output.clkout_phase
  let regs1 := fun j =>
    if j = pairLo id then logiclk_get_bits clkout 15 0
    else if j = pairHi id then logiclk_get_bits clkout 31 16
    else regs j
  ({ output with
      clkout_divide := clkout_divide
      clkout_freq := clk_freq_mult_div / clkout_divide }, regs1)

/-- Embedding of logiclk_calc_params on the device state: reject an
out-of-range requested frequency; for the precise channel run the full
search (failing exactly when it fails, with the cleared multiplier and
pre-divider left in the input stage), then regenerate the shared registers
and every channel's per-output registers; for a non-precise channel
regenerate only that channel's per-output registers.  The flag is true on
success. -/
def logiclk_calc_params (d : LogiclkData) (i : Fin 6) : LogiclkData × Bool :=
  let output := d.output i
  if output.clkout_freq < 4690000 ∨ 800000000 < output.clkout_freq then
    (d, false)
  else if output.precise then
    let r := logiclk_pll_input_mult_div d.input output.clkout_freq
    if r.2 = false then ({ d with input := r.1 }, false)
    else
      let regs1 := logiclk_man_reg_params r.1 output d.man_regs
      let d1 := { d with input := r.1, man_regs := regs1 }
      let d2 := (List.finRange 6).foldl (fun dd k =>
        let p := logiclk_man_reg_params_id dd.input (dd.output k)
          (dd.output k).id dd.man_regs
        { dd with
            output := fun j => if j = k then p.1 else dd.output j
            man_regs := p.2 }) d1
      (d2, true)
  else
    let p := logiclk_man_reg_params_id d.input output output.id d.man_regs
    ({ d with
        output := fun j => if j = i then p.1 else d.output j
        man_regs := p.2 }, true)

/-- Embedding of logiclk_stack_params with LOGICLK_STACK_PUSH on channel i:
copy the channel and the register image to their stacked copies. -/
def logiclk_stack_push (d : LogiclkData) (i : Fin 6) : LogiclkData :=
  { d with output_stack := d.output i, man_regs_stack := d.man_regs }

/-- Embedding of logiclk_stack_params with LOGICLK_STACK_POP on channel i:
restore the channel and the register image from their stacked copies. -/
def logiclk_stack_pop (d : LogiclkData) (i : Fin 6) : LogiclkData :=
  { d with
      output := fun j => if j = i then d.output_stack else d.output j
      man_regs := d.man_regs_stack }

/-- Embedding of logiclk_round_rate on channel i: push the snapshot, set the
requested frequency, recompute the parameters; on failure pop the snapshot
and report the error (none), on success report the achieved frequency. -/
def logiclk_round_rate (d : LogiclkData) (i : Fin 6) (rate : ℕ) :
    LogiclkData × Option ℕ :=
  let d1 := logiclk_stack_push d i
  let d2 := { d1 with
    output := fun j =>
      if j = i then { d1.output i with clkout_freq := rate }
      else d1.output j }
  let r := logiclk_calc_params d2 i
  if r.2 then (r.1, some ((r.1.output i).clkout_freq))
  else (logiclk_stack_pop r.1 i, none)

/-- Embedding of the state change of logiclk_set_rate on channel i (the
subsequent hardware write of logiclk_hw_config performs I/O only and leaves
this state unchanged): when the requested rate differs from the committed
one, push, set and recompute, popping on failure; the flag is true exactly
when no parameter-calculation error is reported. -/
def logiclk_set_rate (d : LogiclkData) (i : Fin 6) (rate : ℕ) :
    LogiclkData × Bool :=
  if rate ≠ (d.output i).clkout_freq then
    let d1 := logiclk_stack_push d i
    let d2 := { d1 with
      output := fun j =>
        if j = i then { d1.output i with clkout_freq := rate }
        else d1.output j }
    let r := logiclk_calc_params d2 i
    if r.2 then (r.1, true)
    else (logiclk_stack_pop r.1 i, false)
  else (d, true)

/-- Embedding of logiclk_recalc_rate on channel i: derive the committed
frequency from the current dividers when it is unset, then regenerate the
shared registers and this channel's per-output registers, returning the
channel's (possibly re-derived) frequency. -/
def logiclk_recalc_rate (d : LogiclkData) (i : Fin 6) : LogiclkData × ℕ :=
  let output := d.output i
  let clk_freq_mult := d.input.clk_freq * d.input.clkfbout_mult
  let output1 := if output.clkout_freq = 0 then
      { output with clkout_freq :=
        clk_freq_mult / d.input.divclk_divide / output.clkout_divide }
    else output
  let regs1 := logiclk_man_reg_params d.input output1 d.man_regs
  let p := logiclk_man_reg_params_id d.input output1 output1.id regs1
  ({ d with
      output := fun j => if j = i then p.1 else d.output j
      man_regs := p.2 }, (p.1).clkout_freq)

/-- Documented packing of a filter table entry into shared register 19. -/
def filterPackReg19 (filter : ℕ) : ℕ :=
  (logiclk_get_bits filter 6 6 <<< 8) |||
    (logiclk_get_bits filter 8 7 <<< 11) |||
    (logiclk_get_bits filter 9 9 <<< 15)

/-- Documented packing of a filter table entry into shared register 20. -/
def filterPackReg20 (filter : ℕ) : ℕ :=
  (logiclk_get_bits filter 0 0 <<< 4) |||
    (logiclk_get_bits filter 2 1 <<< 7) |||
    (logiclk_get_bits filter 4 3 <<< 11) |||
    (logiclk_get_bits filter 5 5 <<< 15)

/-- Documented packing of a lock table entry into shared register 16. -/
def lockPackReg16 (lock : ℕ) : ℕ :=
  logiclk_get_bits lock 29 20

/-- Documented packing of a lock table entry into shared register 17. -/
def lockPackReg17 (lock : ℕ) : ℕ :=
  (logiclk_get_bits lock 34 30 <<< 10) ||| logiclk_get_bits lock 9 0

/-- Documented packing of a lock table entry into shared register 18. -/
def lockPackReg18 (lock : ℕ) : ℕ :=
  (logiclk_get_bits lock 39 35 <<< 10) ||| logiclk_get_bits lock 19 10

/-- Concrete device state used for the rollback analysis (C1): a reference
frequency of 1 Hz makes every VCO candidate fall below the window, so the
full search fails; the committed input stage uses multiplier 8 and
pre-divider 1. -/
def dataC1 : LogiclkData :=
  { input := ⟨1, 8, 0, 1, false⟩
    output := fun j => ⟨100000000, 8, 50000, 0, j, decide (j = 0)⟩
    output_stack := ⟨0, 1, 50000, 0, 0, false⟩
    man_regs := fun _ => 0
    man_regs_stack := fun _ => 0 }

/-- Concrete input stage used for the shared-register analyses (C3, C4). -/
def inputC4 : LogiclkInput := ⟨100000000, 8, 0, 1, false⟩

/-- Concrete device state used for the frame-effect analysis (C4): channel 0
is precise with duty 50%, channel 1 is non-precise with duty 20%, and the
register image was last generated from channel 0. -/
def dataC4 : LogiclkData :=
  { input := inputC4
    output := fun j =>
      ⟨100000000, 8, if j = 0 then 50000 else 20000, 0, j, decide (j = 0)⟩
    output_stack := ⟨0, 1, 50000, 0, 0, false⟩
    man_regs := logiclk_man_reg_params inputC4
      ⟨100000000, 8, 50000, 0, 0, true⟩ (fun _ => 0)
    man_regs_stack := fun _ => 0 }

/-- Concrete input stage with multiplier 3 and high bandwidth, used to
separate the two candidate filter-table indexings (C3). -/
def inputC3 : LogiclkInput := ⟨100000000, 3, 0, 1, true⟩

/-- Concrete output channel used for the table-indexing analysis (C3). -/
def outputC3 : LogiclkOutput := ⟨100000000, 8, 50000, 0, 0, true⟩

/-- Arithmetic characterisation of logiclk_get_bits as division and modulus. -/
theorem logiclk_get_bits_eq (input msb lsb : ℕ) :
    logiclk_get_bits input msb lsb = input / 2 ^ lsb % 2 ^ (msb - lsb + 1) := by
  unfold logiclk_get_bits
  rw [Nat.shiftLeft_eq, one_mul, Nat.and_pow_two_sub_one_eq_mod,
    Nat.shiftRight_eq_div_pow]

/-- C6: for divide = 1 the duty encoder ignores the duty entirely and yields
the no-count encoding low_time = 1, high_time = 1, no_count = 1, edge = 0,
which packs to the word 0x1041. -/
theorem pll_div_divide_one (duty : ℕ) :
    logiclk_pll_div_fields 1 duty = ⟨1, 1, 1, 0⟩ ∧
      logiclk_pll_div 1 duty = 0x1041 := by
  constructor
  · simp [logiclk_pll_div_fields]
  · simp [logiclk_pll_div, logiclk_pll_div_fields]

/-- C7: for every divide in 1..128 and duty in 100..99900, whenever the
no_count field is 0 the low and high times partition the divider:
low_time + high_time = divide. -/
theorem pll_div_low_add_high (divide duty : ℕ)
    (hd1 : 1 ≤ divide) (hd2 : divide ≤ 128)
    (hu1 : 100 ≤ duty) (hu2 : duty ≤ 99900)
    (hnc : (logiclk_pll_div_fields divide duty).no_count = 0) :
    (logiclk_pll_div_fields divide duty).low_time +
      (logiclk_pll_div_fields divide duty).high_time = divide := by
  by_cases h1 : divide = 1
  · subst h1
    simp [logiclk_pll_div_fields] at hnc
  · have hdge2 : 2 ≤ divide := by omega
    simp only [logiclk_pll_div_fields, if_neg h1]
    set duty_fix := duty * 2 ^ LOGICLK_FRACTION_PRECISION % 2 ^ 32 / 100000
      with hdf
    set temp := logiclk_round_fraction (duty_fix * divide % 2 ^ 32) 1
      with htdef
    set T0 := logiclk_get_bits temp (LOGICLK_FRACTION_PRECISION + 6)
      LOGICLK_FRACTION_PRECISION with hT0
    -- duty_fix is at most 1022 for duty at most 99900
    have hfix : duty_fix ≤ 1022 := by
      rw [hdf]
      have hmle : duty * 2 ^ LOGICLK_FRACTION_PRECISION % 2 ^ 32 ≤
          duty * 2 ^ LOGICLK_FRACTION_PRECISION := Nat.mod_le _ _
      have h2 : duty * 2 ^ LOGICLK_FRACTION_PRECISION ≤ 99900 * 1024 := by
        unfold LOGICLK_FRACTION_PRECISION
        calc duty * 2 ^ 10 ≤ 99900 * 2 ^ 10 := Nat.mul_le_mul_right _ hu2
          _ = 99900 * 1024 := by norm_num
      omega
    -- the product fed to rounding never wraps
    have hprod : duty_fix * divide % 2 ^ 32 = duty_fix * divide := by
      apply Nat.mod_eq_of_lt
      have : duty_fix * divide ≤ 1022 * 128 := Nat.mul_le_mul hfix hd2
      omega
    have hprodle : duty_fix * divide ≤ 1022 * divide :=
      Nat.mul_le_mul_right _ hfix
    -- the rounded value is bounded by 1022 * divide + 256
    have h256 : (1 : ℕ) <<< (LOGICLK_FRACTION_PRECISION - 1 - 1) = 256 := by
      decide
    have htemp : temp ≤ 1022 * divide + 256 := by
      rw [htdef]
      simp only [logiclk_round_fraction, h256, hprod]
      split
      · rw [Nat.mod_eq_of_lt (by omega)]
        omega
      · omega
    -- the extracted high time is at most divide (or masked down to zero)
    have hTd : T0 ≤ divide ∨ T0 = 0 := by
      rw [hT0, logiclk_get_bits_eq]
      unfold LOGICLK_FRACTION_PRECISION
      omega
    by_cases h0 : T0 = 0
    · simp only [h0, if_pos rfl, if_true]
      have hne : ¬ (1 : ℕ) = divide := by omega
      simp only [if_neg hne]
      omega
    · simp only [if_neg h0]
      by_cases heq : T0 = divide
      · simp only [if_pos heq]
        omega
      · simp only [if_neg heq]
        omega

/-- Witness for C7 at divide = 2, duty = 50000. -/
theorem pll_div_low_add_high_witness :
    (logiclk_pll_div_fields 2 50000).no_count = 0 ∧
      (logiclk_pll_div_fields 2 50000).low_time +
        (logiclk_pll_div_fields 2 50000).high_time = 2 :=
  ⟨by decide, pll_div_low_add_high 2 50000 (by decide) (by decide)
    (by decide) (by decide) (by decide)⟩

/-- Bitwise or of a value below 2^k with a value shifted left by k places is
plain addition, because the operands occupy disjoint bit ranges. -/
theorem lor_shiftLeft_eq_add {a : ℕ} (b k : ℕ) (h : a < 2 ^ k) :
    a ||| (b <<< k) = a + b * 2 ^ k := by
  apply Nat.eq_of_testBit_eq
  intro j
  have hadd : a + b * 2 ^ k = 2 ^ k * b + a := by ring
  rw [Nat.testBit_or, Nat.testBit_shiftLeft, hadd,
    Nat.testBit_mul_pow_two_add b h j]
  by_cases hj : j < k
  · have hge : ¬ j ≥ k := by omega
    simp [hj, hge]
  · have hge : j ≥ k := by omega
    have ha : a.testBit j = false :=
      Nat.testBit_lt_two_pow
        (lt_of_lt_of_le h (Nat.pow_le_pow_right (by norm_num) hge))
    simp [hj, hge, ha]

/-- Every bit-slice extracted by logiclk_get_bits is below 2^(msb - lsb + 1). -/
theorem logiclk_get_bits_lt (input msb lsb : ℕ) :
    logiclk_get_bits input msb lsb < 2 ^ (msb - lsb + 1) := by
  rw [logiclk_get_bits_eq]
  exact Nat.mod_lt _ (Nat.pos_pow_of_pos _ (by norm_num))

/-- Arithmetic decomposition of the count word: the five interleaved fields
occupy disjoint bit ranges, so the bitwise ors amount to addition. -/
theorem pll_count_eq_add (divide duty : ℕ) (phase : ℤ) :
    logiclk_pll_count divide duty phase =
      logiclk_get_bits (logiclk_pll_div divide duty) 11 0 +
      logiclk_get_bits (logiclk_pll_phase divide phase) 8 6 * 2 ^ 13 +
      logiclk_get_bits (logiclk_pll_phase divide phase) 5 0 * 2 ^ 16 +
      logiclk_get_bits (logiclk_pll_div divide duty) 13 12 * 2 ^ 22 +
      logiclk_get_bits (logiclk_pll_phase divide phase) 10 9 * 2 ^ 24 := by
  simp only [logiclk_pll_count]
  have hA := logiclk_get_bits_lt (logiclk_pll_div divide duty) 11 0
  have hB := logiclk_get_bits_lt (logiclk_pll_phase divide phase) 8 6
  have hC := logiclk_get_bits_lt (logiclk_pll_phase divide phase) 5 0
  have hD := logiclk_get_bits_lt (logiclk_pll_div divide duty) 13 12
  norm_num at hA hB hC hD
  rw [lor_shiftLeft_eq_add _ 13 (by omega)]
  rw [lor_shiftLeft_eq_add _ 16 (by omega)]
  rw [lor_shiftLeft_eq_add _ 22 (by omega)]
  rw [lor_shiftLeft_eq_add _ 24 (by omega)]

/-- C8: round-trip over the count-word interleave.  Extracting the bit ranges
[11:0], [15:13], [21:16], [23:22] and [25:24] from the count word recovers
divide_count bits 11:0, phase_count bits 8:6, phase_count bits 5:0,
divide_count bits 13:12 and phase_count bits 10:9 respectively, for every
divide, duty and phase. -/
theorem pll_count_round_trip (divide duty : ℕ) (phase : ℤ) :
    logiclk_get_bits (logiclk_pll_count divide duty phase) 11 0 =
      logiclk_get_bits (logiclk_pll_div divide duty) 11 0 ∧
    logiclk_get_bits (logiclk_pll_count divide duty phase) 15 13 =
      logiclk_get_bits (logiclk_pll_phase divide phase) 8 6 ∧
    logiclk_get_bits (logiclk_pll_count divide duty phase) 21 16 =
      logiclk_get_bits (logiclk_pll_phase divide phase) 5 0 ∧
    logiclk_get_bits (logiclk_pll_count divide duty phase) 23 22 =
      logiclk_get_bits (logiclk_pll_div divide duty) 13 12 ∧
    logiclk_get_bits (logiclk_pll_count divide duty phase) 25 24 =
      logiclk_get_bits (logiclk_pll_phase divide phase) 10 9 := by
  have hA := logiclk_get_bits_lt (logiclk_pll_div divide duty) 11 0
  have hB := logiclk_get_bits_lt (logiclk_pll_phase divide phase) 8 6
  have hC := logiclk_get_bits_lt (logiclk_pll_phase divide phase) 5 0
  have hD := logiclk_get_bits_lt (logiclk_pll_div divide duty) 13 12
  have hE := logiclk_get_bits_lt (logiclk_pll_phase divide phase) 10 9
  norm_num at hA hB hC hD hE
  rw [pll_count_eq_add]
  set A := logiclk_get_bits (logiclk_pll_div divide duty) 11 0
  set B := logiclk_get_bits (logiclk_pll_phase divide phase) 8 6
  set C := logiclk_get_bits (logiclk_pll_phase divide phase) 5 0
  set D := logiclk_get_bits (logiclk_pll_div divide duty) 13 12
  set E := logiclk_get_bits (logiclk_pll_phase divide phase) 10 9
  simp only [logiclk_get_bits_eq]
  norm_num
  omega

/-- C10: the packed phase word is always below 2^9 (only delay_time in bits
5:0 and phase_mux in bits 8:6 can be nonzero), so the [25:24] field of the
count word, sourced from phase_count bits 10:9, is always zero, and every
count word is below 2^24. -/
theorem pll_phase_lt_and_count_lt (divide duty : ℕ) (phase : ℤ) :
    logiclk_pll_phase divide phase < 2 ^ 9 ∧
    logiclk_get_bits (logiclk_pll_phase divide phase) 10 9 = 0 ∧
    logiclk_pll_count divide duty phase < 2 ^ 24 := by
  have hp : logiclk_pll_phase divide phase < 2 ^ 9 := by
    unfold logiclk_pll_phase
    have h1 : logiclk_get_bits (logiclk_round_fraction
        ((if phase < 0 then
            (phase + 360000).toNat * 2 ^ LOGICLK_FRACTION_PRECISION / 1000
          else phase.toNat * 2 ^ LOGICLK_FRACTION_PRECISION / 1000) *
          divide % 2 ^ 32 / 360) 3) (LOGICLK_FRACTION_PRECISION + 5)
        LOGICLK_FRACTION_PRECISION &&& 0x3F < 2 ^ 6 :=
      Nat.and_lt_two_pow _ (by norm_num)
    have h2 : logiclk_get_bits (logiclk_round_fraction
        ((if phase < 0 then
            (phase + 360000).toNat * 2 ^ LOGICLK_FRACTION_PRECISION / 1000
          else phase.toNat * 2 ^ LOGICLK_FRACTION_PRECISION / 1000) *
          divide % 2 ^ 32 / 360) 3) (LOGICLK_FRACTION_PRECISION - 1)
        (LOGICLK_FRACTION_PRECISION - 3) &&& 0x7 < 2 ^ 3 :=
      Nat.and_lt_two_pow _ (by norm_num)
    rw [lor_shiftLeft_eq_add _ 6 (by omega)]
    omega
  refine ⟨hp, ?_, ?_⟩
  · rw [logiclk_get_bits_eq]
    norm_num
    omega
  · have hA := logiclk_get_bits_lt (logiclk_pll_div divide duty) 11 0
    have hB := logiclk_get_bits_lt (logiclk_pll_phase divide phase) 8 6
    have hC := logiclk_get_bits_lt (logiclk_pll_phase divide phase) 5 0
    have hD := logiclk_get_bits_lt (logiclk_pll_div divide duty) 13 12
    have hE : logiclk_get_bits (logiclk_pll_phase divide phase) 10 9 = 0 := by
      rw [logiclk_get_bits_eq]
      norm_num
      omega
    norm_num at hA hB hC hD
    rw [pll_count_eq_add, hE]
    omega

/-- Result of abs64 on any 64-bit value is at most 2^63. -/
theorem freqErr_le_pow (a b : ℕ) : freqErr a b ≤ 2 ^ 63 := by
  unfold freqErr abs64
  split
  · omega
  · omega

/-- Every frequency error computed by the searches is strictly below the
initial error value ((u64)-1). -/
theorem freqErr_lt_u64max (a b : ℕ) : freqErr a b < u64max := by
  have := freqErr_le_pow a b
  unfold u64max at *
  omega

/-- On operands below 2^63 the wrapped u64 error agrees with the exact
distance. -/
theorem freqErr_eq_dist (a b : ℕ) (ha : a < 2 ^ 63) (hb : b < 2 ^ 63) :
    freqErr a b = Nat.dist a b := by
  unfold freqErr abs64 Nat.dist
  split
  · omega
  · omega

/-- Bounds of the members of the enumeration list of the triple loop. -/
theorem mem_searchTriples {t : ℕ × ℕ × ℕ} (ht : t ∈ searchTriples) :
    1 ≤ t.1 ∧ t.1 ≤ 56 ∧ 2 ≤ t.2.1 ∧ t.2.1 ≤ 64 ∧ 1 ≤ t.2.2 ∧ t.2.2 ≤ 128 := by
  unfold searchTriples at ht
  simp only [List.mem_flatMap, List.mem_map, List.mem_range'_1] at ht
  obtain ⟨p, hp, m, hm, d, hd, heq⟩ := ht
  subst heq
  simp only []
  omega

/-- When every remaining candidate has a VCO frequency below the window the
triple loop leaves the accumulator unchanged. -/
theorem searchLoop_infeasible (clkin target : ℕ) (L : List (ℕ × ℕ × ℕ))
    (acc : SearchAcc) (h : ∀ t ∈ L, searchVco clkin t < 600000000) :
    searchLoop clkin target L acc = acc := by
  induction L with
  | nil => rfl
  | cons t rest ih =>
    have ht := h t (by simp)
    simp only [searchLoop]
    rw [if_pos (Or.inl ht)]
    exact ih (fun x hx => h x (by simp [hx]))

/-- With a 1 Hz reference no candidate reaches the VCO window, so the full
search ends with the cleared accumulator. -/
theorem searchResult_one (target : ℕ) :
    searchResult 1 target = ⟨0, 0, u64max⟩ := by
  unfold searchResult
  apply searchLoop_infeasible
  intro t ht
  have hb := mem_searchTriples ht
  unfold searchVco
  have hle : 1 * t.2.1 / t.1 ≤ t.2.1 := by
    rw [one_mul]
    exact Nat.div_le_self _ _
  omega

/-- Once the accumulator holds a zero error no later iteration changes it. -/
theorem foldl_searchStepF_err_zero (clkin target : ℕ) (L : List (ℕ × ℕ × ℕ))
    (acc : SearchAcc) (h : acc.err = 0) :
    L.foldl (searchStepF clkin target) acc = acc := by
  induction L generalizing acc with
  | nil => rfl
  | cons t rest ih =>
    have hstep : searchStepF clkin target acc t = acc := by
      simp only [searchStepF]
      split
      · rfl
      · split
        · exfalso
          omega
        · rfl
    rw [List.foldl_cons, hstep, ih acc h]

/-- The triple loop with its early exact-match return computes the same
accumulator as the plain left fold of its step function. -/
theorem searchLoop_eq_foldl (clkin target : ℕ) (L : List (ℕ × ℕ × ℕ))
    (acc : SearchAcc) :
    searchLoop clkin target L acc = L.foldl (searchStepF clkin target) acc := by
  induction L generalizing acc with
  | nil => rfl
  | cons t rest ih =>
    rw [List.foldl_cons]
    simp only [searchLoop, searchStepF]
    by_cases hw : searchVco clkin t < 600000000 ∨
        1600000000 < searchVco clkin t
    · rw [if_pos hw, if_pos hw, ih]
    · rw [if_neg hw, if_neg hw]
      by_cases he : freqErr (searchVco clkin t / t.2.2) target < acc.err
      · rw [if_pos he, if_pos he]
        by_cases he0 : freqErr (searchVco clkin t / t.2.2) target = 0
        · rw [if_pos he0]
          exact (foldl_searchStepF_err_zero clkin target rest _ he0).symm
        · rw [if_neg he0, ih]
      · rw [if_neg he, if_neg he, ih]

/-- Folding the step function over a list equals folding the reduced step
function over the feasible sublist: infeasible candidates are skipped, and
on feasible candidates the wrapped u64 error agrees with the exact
distance whenever the target fits in 63 bits. -/
theorem foldl_searchStepF_eq_filter (clkin target : ℕ)
    (htarget : target < 2 ^ 63) (L : List (ℕ × ℕ × ℕ)) (acc : SearchAcc) :
    L.foldl (searchStepF clkin target) acc =
      (L.filter fun t => vcoOk clkin t).foldl (searchStep2 clkin target) acc := by
  induction L generalizing acc with
  | nil => rfl
  | cons t rest ih =>
    rw [List.foldl_cons]
    by_cases hw : vcoOk clkin t = true
    · rw [List.filter_cons_of_pos hw, List.foldl_cons]
      have hwp : 600000000 ≤ searchVco clkin t ∧
          searchVco clkin t ≤ 1600000000 := by
        simpa [vcoOk] using hw
      have hstep : searchStepF clkin target acc t =
          searchStep2 clkin target acc t := by
        simp only [searchStepF, searchStep2]
        rw [if_neg (by omega)]
        have hfd : freqErr (searchVco clkin t / t.2.2) target =
            errOf clkin target t := by
          unfold errOf
          apply freqErr_eq_dist
          · have hds : searchVco clkin t / t.2.2 ≤ searchVco clkin t :=
              Nat.div_le_self _ _
            omega
          · omega
        rw [hfd]
      rw [hstep, ih]
    · rw [List.filter_cons_of_neg hw]
      have hwp : ¬(600000000 ≤ searchVco clkin t ∧
          searchVco clkin t ≤ 1600000000) := by
        simpa [vcoOk] using hw
      have hstep : searchStepF clkin target acc t = acc := by
        simp only [searchStepF]
        rw [if_pos (by omega)]
      rw [hstep, ih]

/-- The reduced fold over the feasible list is the image under phi of the
first-strict-improvement fold on optional candidates. -/
theorem foldl_searchStep2_eq_phi (clkin target : ℕ) (F : List (ℕ × ℕ × ℕ))
    (hF : ∀ t ∈ F, errOf clkin target t < u64max) (o : Option (ℕ × ℕ × ℕ)) :
    F.foldl (searchStep2 clkin target) (phi clkin target o) =
      phi clkin target (F.foldl (argStep clkin target) o) := by
  induction F generalizing o with
  | nil => rfl
  | cons t rest ih =>
    rw [List.foldl_cons, List.foldl_cons]
    have hstep : searchStep2 clkin target (phi clkin target o) t =
        phi clkin target (argStep clkin target o t) := by
      cases o with
      | none =>
        simp only [searchStep2, argStep, phi]
        rw [if_pos (hF t (by simp))]
      | some t0 =>
        simp only [searchStep2, argStep, phi]
        split
        · rfl
        · rfl
    rw [hstep]
    exact ih (fun x hx => hF x (by simp [hx])) _

/-- A left fold by min never exceeds its initial value. -/
theorem foldl_min_le (l : List ℕ) (a : ℕ) : l.foldl min a ≤ a := by
  induction l generalizing a with
  | nil => simp
  | cons b l ih =>
    rw [List.foldl_cons]
    exact le_trans (ih (min a b)) (min_le_left a b)

/-- A left fold by min is attained: it equals the initial value or a list
member. -/
theorem foldl_min_mem (l : List ℕ) (a : ℕ) :
    l.foldl min a = a ∨ l.foldl min a ∈ l := by
  induction l generalizing a with
  | nil => left; rfl
  | cons b l ih =>
    rw [List.foldl_cons]
    rcases ih (min a b) with h | h
    · rcases le_total a b with hab | hab
      · left
        rw [h, min_eq_left hab]
      · right
        rw [h, min_eq_right hab]
        simp
    · right
      simp [h]

/-- Characterisation of the error-equality predicate when false. -/
theorem errPred_false (clkin target e : ℕ) (t : ℕ × ℕ × ℕ)
    (h : errOf clkin target t ≠ e) : ¬ errPred clkin target e t = true := by
  simp [errPred, h]

/-- Characterisation of the error-equality predicate when true. -/
theorem errPred_true (clkin target e : ℕ) (t : ℕ × ℕ × ℕ)
    (h : errOf clkin target t = e) : errPred clkin target e t = true := by
  simp [errPred, h]

/-- The first-strict-improvement fold started from a seed candidate returns
the first element (seed included) attaining the minimum error. -/
theorem foldl_argStep_eq_find (clkin target : ℕ) (F : List (ℕ × ℕ × ℕ))
    (t0 : ℕ × ℕ × ℕ) :
    F.foldl (argStep clkin target) (some t0) =
      (t0 :: F).find? (errPred clkin target
        ((F.map (errOf clkin target)).foldl min (errOf clkin target t0))) := by
  induction F generalizing t0 with
  | nil => simp [List.find?, errPred]
  | cons t F2 ih =>
    rw [List.foldl_cons]
    by_cases hlt : errOf clkin target t < errOf clkin target t0
    · have hstep : argStep clkin target (some t0) t = some t := by
        simp only [argStep]
        rw [if_pos hlt]
      have hM : ((t :: F2).map (errOf clkin target)).foldl min
          (errOf clkin target t0) =
          (F2.map (errOf clkin target)).foldl min (errOf clkin target t) := by
        rw [List.map_cons, List.foldl_cons, min_eq_right (le_of_lt hlt)]
      have hMle : (F2.map (errOf clkin target)).foldl min
          (errOf clkin target t) ≤ errOf clkin target t := foldl_min_le _ _
      have hR : (t0 :: t :: F2).find? (errPred clkin target
          ((F2.map (errOf clkin target)).foldl min (errOf clkin target t))) =
          (t :: F2).find? (errPred clkin target
          ((F2.map (errOf clkin target)).foldl min (errOf clkin target t))) :=
        List.find?_cons_of_neg _ (errPred_false _ _ _ _ (by omega))
      rw [hstep, ih, hM, hR]
    · have hstep : argStep clkin target (some t0) t = some t0 := by
        simp only [argStep]
        rw [if_neg hlt]
      have hge : errOf clkin target t0 ≤ errOf clkin target t := by omega
      have hM : ((t :: F2).map (errOf clkin target)).foldl min
          (errOf clkin target t0) =
          (F2.map (errOf clkin target)).foldl min (errOf clkin target t0) := by
        rw [List.map_cons, List.foldl_cons, min_eq_left hge]
      have hMle : (F2.map (errOf clkin target)).foldl min
          (errOf clkin target t0) ≤ errOf clkin target t0 := foldl_min_le _ _
      rw [hstep, ih, hM]
      by_cases hq0 : errOf clkin target t0 =
          (F2.map (errOf clkin target)).foldl min (errOf clkin target t0)
      · rw [List.find?_cons_of_pos _ (errPred_true _ _ _ _ hq0),
          List.find?_cons_of_pos _ (errPred_true _ _ _ _ hq0)]
      · have h1 : (t0 :: F2).find? (errPred clkin target
            ((F2.map (errOf clkin target)).foldl min (errOf clkin target t0))) =
            F2.find? (errPred clkin target
            ((F2.map (errOf clkin target)).foldl min (errOf clkin target t0))) :=
          List.find?_cons_of_neg _ (errPred_false _ _ _ _ (by omega))
        have h2 : (t0 :: t :: F2).find? (errPred clkin target
            ((F2.map (errOf clkin target)).foldl min (errOf clkin target t0))) =
            (t :: F2).find? (errPred clkin target
            ((F2.map (errOf clkin target)).foldl min (errOf clkin target t0))) :=
          List.find?_cons_of_neg _ (errPred_false _ _ _ _ (by omega))
        have h3 : (t :: F2).find? (errPred clkin target
            ((F2.map (errOf clkin target)).foldl min (errOf clkin target t0))) =
            F2.find? (errPred clkin target
            ((F2.map (errOf clkin target)).foldl min (errOf clkin target t0))) :=
          List.find?_cons_of_neg _ (errPred_false _ _ _ _ (by omega))
        rw [h1, h2, h3]

/-- Every feasible candidate has an error strictly below the initial error. -/
theorem errOf_lt_u64max (clkin target : ℕ) (htarget : target < 2 ^ 63)
    {t : ℕ × ℕ × ℕ} (ht : t ∈ feasibleList clkin) :
    errOf clkin target t < u64max := by
  have hww : vcoOk clkin t = true := (List.mem_filter.mp ht).2
  have hwp : 600000000 ≤ searchVco clkin t ∧
      searchVco clkin t ≤ 1600000000 := by
    simpa [vcoOk] using hww
  have hds : searchVco clkin t / t.2.2 ≤ searchVco clkin t :=
    Nat.div_le_self _ _
  unfold errOf Nat.dist u64max
  generalize searchVco clkin t / t.2.2 = b at hds ⊢
  omega

/-- The full search ends in the image of phi over the first-improvement fold
on the feasible list. -/
theorem searchResult_eq_phi (clkin target : ℕ) (htarget : target < 2 ^ 63) :
    searchResult clkin target =
      phi clkin target
        ((feasibleList clkin).foldl (argStep clkin target) none) := by
  unfold searchResult
  rw [searchLoop_eq_foldl, foldl_searchStepF_eq_filter clkin target htarget]
  have hF : ∀ t ∈ feasibleList clkin, errOf clkin target t < u64max :=
    fun t ht => errOf_lt_u64max clkin target htarget ht
  have hphi := foldl_searchStep2_eq_phi clkin target (feasibleList clkin) hF
    none
  unfold feasibleList at hphi
  simpa [phi] using hphi

/-- Main characterisation of the full search against the specification:
either no candidate is feasible, the accumulator keeps its cleared state and
the specification search fails, or both agree on the first candidate in
enumeration order attaining the minimal error. -/
theorem searchResult_spec (clkin target : ℕ) (htarget : target < 2 ^ 63) :
    (feasibleList clkin = [] ∧ searchResult clkin target = ⟨0, 0, u64max⟩ ∧
      specSearch clkin target = none) ∨
    (∃ t, t ∈ feasibleList clkin ∧
      searchResult clkin target = ⟨t.2.1, t.1, errOf clkin target t⟩ ∧
      specSearch clkin target = some (t.2.1, t.1)) := by
  rcases hFL : feasibleList clkin with _ | ⟨t0, F2⟩
  · left
    refine ⟨rfl, ?_, ?_⟩
    · rw [searchResult_eq_phi clkin target htarget, hFL]
      rfl
    · unfold specSearch
      rw [hFL]
      rfl
  · right
    have hfold : (feasibleList clkin).foldl (argStep clkin target) none =
        F2.foldl (argStep clkin target) (some t0) := by
      rw [hFL, List.foldl_cons]
      rfl
    set M := (F2.map (errOf clkin target)).foldl min (errOf clkin target t0)
      with hMdef
    have hfind := foldl_argStep_eq_find clkin target F2 t0
    -- the minimum is attained, so find? succeeds
    have hex : ∃ x ∈ t0 :: F2, errPred clkin target M x = true := by
      rcases foldl_min_mem (F2.map (errOf clkin target)) (errOf clkin target t0)
        with h | h
      · exact ⟨t0, by simp, errPred_true _ _ _ _ (by omega)⟩
      · rw [← hMdef] at h
        obtain ⟨x, hx, hxe⟩ := List.mem_map.mp h
        exact ⟨x, by simp [hx], errPred_true _ _ _ _ hxe⟩
    obtain ⟨tstar, hts⟩ := Option.isSome_iff_exists.mp
      (List.find?_isSome.mpr hex)
    refine ⟨tstar, ?_, ?_, ?_⟩
    · exact List.mem_of_find?_eq_some hts
    · rw [searchResult_eq_phi clkin target htarget, hfold, hfind, ← hMdef, hts]
      rfl
    · unfold specSearch
      rw [hFL, List.map_cons]
      have hminq : (errOf clkin target t0 ::
          F2.map (errOf clkin target)).min? = some M := by
        simp [List.min?, hMdef]
      rw [hminq, Option.some_bind, hts]
      rfl

/-- C2: the full search agrees with its specification: it enumerates the
pre-divider/multiplier/output-divider triples in the documented order,
considers only candidates in the VCO window, stores the multiplier and
pre-divider of the first candidate attaining the minimal absolute error
(returning early on an exact match changes nothing observable), and fails
exactly when no candidate satisfies the window (leaving the cleared
multiplier and pre-divider behind). -/
theorem full_search_matches_spec (input : LogiclkInput) (target : ℕ)
    (hclk : input.clk_freq < 2 ^ 32) (ht : target < 2 ^ 32) :
    (specSearch input.clk_freq target = none →
      logiclk_pll_input_mult_div input target =
        ({ input with clkfbout_mult := 0, divclk_divide := 0 }, false)) ∧
    (∀ m p, specSearch input.clk_freq target = some (m, p) →
      logiclk_pll_input_mult_div input target =
        ({ input with clkfbout_mult := m, divclk_divide := p }, true)) := by
  have ht63 : target < 2 ^ 63 := by omega
  constructor
  · intro hnone
    rcases searchResult_spec input.clk_freq target ht63 with
      ⟨hnil, hres, hspec⟩ | ⟨t, htm, hres, hspec⟩
    · unfold logiclk_pll_input_mult_div
      rw [hres]
      simp
    · rw [hspec] at hnone
      exact absurd hnone (by simp)
  · intro m p hsome
    rcases searchResult_spec input.clk_freq target ht63 with
      ⟨hnil, hres, hspec⟩ | ⟨t, htm, hres, hspec⟩
    · rw [hspec] at hsome
      exact absurd hsome (by simp)
    · rw [hspec] at hsome
      simp only [Option.some.injEq, Prod.mk.injEq] at hsome
      obtain ⟨h1, h2⟩ := hsome
      subst h1
      subst h2
      unfold logiclk_pll_input_mult_div
      rw [hres]
      have hb := mem_searchTriples (List.mem_filter.mp htm).1
      have hm0 : t.2.1 ≠ 0 := by omega
      have hp0 : t.1 ≠ 0 := by omega
      simp [hm0, hp0]

/-- Witness for C2 at a 600 MHz reference and a 600 MHz target. -/
theorem full_search_matches_spec_witness :
    ((600000000 : ℕ) < 2 ^ 32) ∧
    ((specSearch 600000000 600000000 = none →
      logiclk_pll_input_mult_div ⟨600000000, 8, 0, 1, false⟩ 600000000 =
        (⟨600000000, 0, 0, 0, false⟩, false)) ∧
    (∀ m p, specSearch 600000000 600000000 = some (m, p) →
      logiclk_pll_input_mult_div ⟨600000000, 8, 0, 1, false⟩ 600000000 =
        (⟨600000000, m, 0, p, false⟩, true))) :=
  ⟨by norm_num, full_search_matches_spec ⟨600000000, 8, 0, 1, false⟩ 600000000
    (by norm_num) (by norm_num)⟩

/-- C5: whenever the full search succeeds, the resulting input stage
satisfies the VCO invariant: the multiplier lies in 2..64, the pre-divider
in 1..56, and the VCO frequency in [600 MHz, 1600 MHz]. -/
theorem full_search_vco_invariant (input : LogiclkInput) (target : ℕ)
    (hclk : input.clk_freq < 2 ^ 32) (ht : target < 2 ^ 32)
    (hok : (logiclk_pll_input_mult_div input target).2 = true) :
    2 ≤ (logiclk_pll_input_mult_div input target).1.clkfbout_mult ∧
    (logiclk_pll_input_mult_div input target).1.clkfbout_mult ≤ 64 ∧
    1 ≤ (logiclk_pll_input_mult_div input target).1.divclk_divide ∧
    (logiclk_pll_input_mult_div input target).1.divclk_divide ≤ 56 ∧
    600000000 ≤ input.clk_freq *
      (logiclk_pll_input_mult_div input target).1.clkfbout_mult /
      (logiclk_pll_input_mult_div input target).1.divclk_divide ∧
    input.clk_freq *
      (logiclk_pll_input_mult_div input target).1.clkfbout_mult /
      (logiclk_pll_input_mult_div input target).1.divclk_divide ≤
      1600000000 := by
  have ht63 : target < 2 ^ 63 := by omega
  rcases searchResult_spec input.clk_freq target ht63 with ⟨hnil, hres, hspec⟩ |
    ⟨t, htm, hres, hspec⟩
  · exfalso
    unfold logiclk_pll_input_mult_div at hok
    rw [hres] at hok
    simp at hok
  · have hmem := List.mem_filter.mp htm
    have hb := mem_searchTriples hmem.1
    have hwp : 600000000 ≤ searchVco input.clk_freq t ∧
        searchVco input.clk_freq t ≤ 1600000000 := by
      simpa [vcoOk] using hmem.2
    unfold searchVco at hwp
    unfold logiclk_pll_input_mult_div
    rw [hres]
    exact ⟨hb.2.2.1, hb.2.2.2.1, hb.1, hb.2.1, hwp.1, hwp.2⟩

/-- Witness for C5 at a 600 MHz reference and a 600 MHz target (the search
returns multiplier 2, pre-divider 1). -/
theorem full_search_vco_invariant_witness :
    ((logiclk_pll_input_mult_div ⟨600000000, 8, 0, 1, false⟩
        600000000).2 = true) ∧
    (2 ≤ (logiclk_pll_input_mult_div ⟨600000000, 8, 0, 1, false⟩
        600000000).1.clkfbout_mult ∧
      (logiclk_pll_input_mult_div ⟨600000000, 8, 0, 1, false⟩
        600000000).1.clkfbout_mult ≤ 64 ∧
      1 ≤ (logiclk_pll_input_mult_div ⟨600000000, 8, 0, 1, false⟩
        600000000).1.divclk_divide ∧
      (logiclk_pll_input_mult_div ⟨600000000, 8, 0, 1, false⟩
        600000000).1.divclk_divide ≤ 56 ∧
      600000000 ≤ (600000000 : ℕ) *
        (logiclk_pll_input_mult_div ⟨600000000, 8, 0, 1, false⟩
          600000000).1.clkfbout_mult /
        (logiclk_pll_input_mult_div ⟨600000000, 8, 0, 1, false⟩
          600000000).1.divclk_divide ∧
      (600000000 : ℕ) *
        (logiclk_pll_input_mult_div ⟨600000000, 8, 0, 1, false⟩
          600000000).1.clkfbout_mult /
        (logiclk_pll_input_mult_div ⟨600000000, 8, 0, 1, false⟩
          600000000).1.divclk_divide ≤ 1600000000) :=
  ⟨by decide, full_search_vco_invariant ⟨600000000, 8, 0, 1, false⟩ 600000000
    (by norm_num) (by norm_num) (by decide)⟩

/-- Unfolding equation of one iteration of the restricted search loop. -/
theorem outLoop_cons (fmd target d : ℕ) (rest : List ℕ) (acc : OutAcc) :
    outLoop fmd target (d :: rest) acc =
      if freqErr (fmd / d) target < acc.err then
        (if freqErr (fmd / d) target = 0 then ⟨d, freqErr (fmd / d) target⟩
         else outLoop fmd target rest ⟨d, freqErr (fmd / d) target⟩)
      else outLoop fmd target rest acc := rfl

/-- The divider stored by the restricted search stays in 1..128 once it is
there, whatever the remaining candidates do. -/
theorem outLoop_div_range (fmd target : ℕ) (L : List ℕ) (acc : OutAcc)
    (hL : ∀ d ∈ L, 1 ≤ d ∧ d ≤ 128) (h1 : 1 ≤ acc.div) (h2 : acc.div ≤ 128) :
    1 ≤ (outLoop fmd target L acc).div ∧
      (outLoop fmd target L acc).div ≤ 128 := by
  induction L generalizing acc with
  | nil => exact ⟨h1, h2⟩
  | cons d rest ih =>
    simp only [outLoop]
    split
    · split
      · exact ⟨(hL d (by simp)).1, (hL d (by simp)).2⟩
      · exact ih _ (fun x hx => hL x (by simp [hx])) (hL d (by simp)).1
          (hL d (by simp)).2
    · exact ih _ (fun x hx => hL x (by simp [hx])) h1 h2

/-- C9: for every input state (any reference frequency, multiplier and
pre-divider, division by zero being the total truncating division of the
embedding) and every target, the restricted output-divider search returns a
divider in 1..128; its cleared 0 start value is never returned because the
candidate always strictly improves the initial error ((u64)-1). -/
theorem pll_output_div_in_range
    (clk_freq clkfbout_mult divclk_divide freq_out : ℕ) :
    1 ≤ logiclk_pll_output_div clk_freq clkfbout_mult divclk_divide freq_out ∧
      logiclk_pll_output_div clk_freq clkfbout_mult divclk_divide freq_out ≤
        128 := by
  unfold logiclk_pll_output_div
  have hsplit : List.range' 1 128 = 1 :: List.range' 2 127 := by
    rw [show (128 : ℕ) = 127 + 1 from rfl, List.range'_succ]
  rw [hsplit, outLoop_cons]
  have he := freqErr_lt_u64max
    (clk_freq * clkfbout_mult / divclk_divide / 1) freq_out
  rw [if_pos he]
  split
  · exact ⟨by simp, by simp⟩
  · apply outLoop_div_range
    · intro d hd
      rw [List.mem_range'_1] at hd
      omega
    · simp
    · simp

/-- Evaluation of logiclk_calc_params on a precise channel whose requested
frequency is in range but whose full search fails: only the input stage is
modified (it keeps the cleared multiplier and pre-divider), and the error is
reported. -/
theorem calc_params_precise_fail (d : LogiclkData) (i : Fin 6)
    (hlow : 4690000 ≤ (d.output i).clkout_freq)
    (hhigh : (d.output i).clkout_freq ≤ 800000000)
    (hprec : (d.output i).precise = true)
    (hfail : (logiclk_pll_input_mult_div d.input
      (d.output i).clkout_freq).2 = false) :
    logiclk_calc_params d i =
      ({ d with input :=
        (logiclk_pll_input_mult_div d.input (d.output i).clkout_freq).1 },
        false) := by
  simp only [logiclk_calc_params]
  rw [if_neg (by omega), if_pos hprec, if_pos hfail]

/-- Evaluation of logiclk_round_rate on a precise channel with an in-range
requested frequency whose full search fails: the call reports the error and
the final input stage is exactly what the failed search left behind. -/
theorem round_rate_precise_fail (d : LogiclkData) (i : Fin 6) (rate : ℕ)
    (hlow : 4690000 ≤ rate) (hhigh : rate ≤ 800000000)
    (hprec : (d.output i).precise = true)
    (hfail : (logiclk_pll_input_mult_div d.input rate).2 = false) :
    (logiclk_round_rate d i rate).2 = none ∧
    (logiclk_round_rate d i rate).1.input =
      (logiclk_pll_input_mult_div d.input rate).1 := by
  simp only [logiclk_round_rate, logiclk_stack_push]
  have hcalc := calc_params_precise_fail
    { d with
      output_stack := d.output i
      man_regs_stack := d.man_regs
      output := fun j =>
        if j = i then { d.output i with clkout_freq := rate }
        else d.output j }
    i (by simpa using hlow) (by simpa using hhigh) (by simpa using hprec)
    (by simpa using hfail)
  simp only at hcalc
  rw [hcalc]
  simp [logiclk_stack_pop]

/-- C1 (code bug): when the full search fails, logiclk_round_rate reports
the error and pops the snapshot, but the snapshot never covered the input
stage: the search left clkfbout_mult = divclk_divide = 0 behind, so the
InputStage is not restored to its pre-call values (here multiplier 8 and
pre-divider 1).  The concrete state uses a 1 Hz reference, for which no
multiplier/pre-divider pair reaches the VCO window. -/
theorem round_rate_failure_clobbers_input :
    (logiclk_round_rate dataC1 0 200000000).2 = none ∧
    (logiclk_round_rate dataC1 0 200000000).1.input.clkfbout_mult = 0 ∧
    (logiclk_round_rate dataC1 0 200000000).1.input.divclk_divide = 0 ∧
    dataC1.input.clkfbout_mult = 8 ∧
    dataC1.input.divclk_divide = 1 := by
  have hfail : (logiclk_pll_input_mult_div dataC1.input 200000000).2 =
      false := by
    unfold logiclk_pll_input_mult_div
    rw [show dataC1.input.clk_freq = 1 from rfl, searchResult_one]
    rfl
  have hmain := round_rate_precise_fail dataC1 0 200000000 (by norm_num)
    (by norm_num) (by rfl) hfail
  refine ⟨hmain.1, ?_, ?_, rfl, rfl⟩
  · rw [hmain.2]
    unfold logiclk_pll_input_mult_div
    rw [show dataC1.input.clk_freq = 1 from rfl, searchResult_one]
  · rw [hmain.2]
    unfold logiclk_pll_input_mult_div
    rw [show dataC1.input.clk_freq = 1 from rfl, searchResult_one]

/-- C3 counterexample: for multiplier 3 in high-bandwidth mode, shared
register 20 written by logiclk_man_reg_params is not the packing of the
filter table entry at index multiplier - 1 = 2 (the code passes
clkfbout_mult - 1 to a lookup helper that subtracts one again, so it packs
the entry at index multiplier - 2 = 1 instead). -/
theorem man_reg_params_not_filter_index_m_sub_one :
    logiclk_man_reg_params inputC3 outputC3 (fun _ => 0) 20 ≠
      filterPackReg20 (lut_high.getD (3 - 1) 0) := by
  decide

/-- C3 (amended): for every multiplier m in 2..64 and either bandwidth mode,
the loop-filter value packed into shared registers 19-20 is the filter table
entry at index m - 2 (not m - 1), and the 40-bit lock value packed into
shared registers 16-18 is the lock table entry at index m - 2. -/
theorem man_reg_params_table_index (input : LogiclkInput)
    (output : LogiclkOutput) (regs : Fin 21 → ℕ)
    (h2 : 2 ≤ input.clkfbout_mult) (h64 : input.clkfbout_mult ≤ 64) :
    logiclk_man_reg_params input output regs 19 =
      filterPackReg19 ((if input.bw_high then lut_high else lut_low).getD
        (input.clkfbout_mult - 2) 0) ∧
    logiclk_man_reg_params input output regs 20 =
      filterPackReg20 ((if input.bw_high then lut_high else lut_low).getD
        (input.clkfbout_mult - 2) 0) ∧
    logiclk_man_reg_params input output regs 16 =
      lockPackReg16 (lut_lock.getD (input.clkfbout_mult - 2) 0) ∧
    logiclk_man_reg_params input output regs 17 =
      lockPackReg17 (lut_lock.getD (input.clkfbout_mult - 2) 0) ∧
    logiclk_man_reg_params input output regs 18 =
      lockPackReg18 (lut_lock.getD (input.clkfbout_mult - 2) 0) := by
  have hidx : input.clkfbout_mult - 1 - 1 = input.clkfbout_mult - 2 := by
    omega
  have hfilter : logiclk_pll_lut_filter (input.clkfbout_mult - 1)
      input.bw_high =
      (if input.bw_high then lut_high else lut_low).getD
        (input.clkfbout_mult - 2) 0 := by
    unfold logiclk_pll_lut_filter
    cases input.bw_high <;> simp [hidx]
  have hlock : logiclk_pll_lut_lock (input.clkfbout_mult - 1) =
      lut_lock.getD (input.clkfbout_mult - 2) 0 := by
    unfold logiclk_pll_lut_lock
    rw [hidx]
  have h19 : logiclk_man_reg_params input output regs 19 =
      filterPackReg19 (logiclk_pll_lut_filter (input.clkfbout_mult - 1)
        input.bw_high) := rfl
  have h20 : logiclk_man_reg_params input output regs 20 =
      filterPackReg20 (logiclk_pll_lut_filter (input.clkfbout_mult - 1)
        input.bw_high) := rfl
  have h16 : logiclk_man_reg_params input output regs 16 =
      lockPackReg16 (logiclk_pll_lut_lock (input.clkfbout_mult - 1)) := rfl
  have h17 : logiclk_man_reg_params input output regs 17 =
      lockPackReg17 (logiclk_pll_lut_lock (input.clkfbout_mult - 1)) := rfl
  have h18 : logiclk_man_reg_params input output regs 18 =
      lockPackReg18 (logiclk_pll_lut_lock (input.clkfbout_mult - 1)) := rfl
  exact ⟨by rw [h19, hfilter], by rw [h20, hfilter], by rw [h16, hlock],
    by rw [h17, hlock], by rw [h18, hlock]⟩

/-- Witness for the amended C3 at multiplier 3, high bandwidth. -/
theorem man_reg_params_table_index_witness :
    (2 ≤ inputC3.clkfbout_mult) ∧ (inputC3.clkfbout_mult ≤ 64) ∧
    (logiclk_man_reg_params inputC3 outputC3 (fun _ => 0) 19 =
      filterPackReg19 ((if inputC3.bw_high then lut_high else lut_low).getD
        (inputC3.clkfbout_mult - 2) 0) ∧
    logiclk_man_reg_params inputC3 outputC3 (fun _ => 0) 20 =
      filterPackReg20 ((if inputC3.bw_high then lut_high else lut_low).getD
        (inputC3.clkfbout_mult - 2) 0) ∧
    logiclk_man_reg_params inputC3 outputC3 (fun _ => 0) 16 =
      lockPackReg16 (lut_lock.getD (inputC3.clkfbout_mult - 2) 0) ∧
    logiclk_man_reg_params inputC3 outputC3 (fun _ => 0) 17 =
      lockPackReg17 (lut_lock.getD (inputC3.clkfbout_mult - 2) 0) ∧
    logiclk_man_reg_params inputC3 outputC3 (fun _ => 0) 18 =
      lockPackReg18 (lut_lock.getD (inputC3.clkfbout_mult - 2) 0)) :=
  ⟨by decide, by decide, man_reg_params_table_index inputC3 outputC3
    (fun _ => 0) (by decide) (by decide)⟩

/-- Frame property of logiclk_man_reg_params: registers other than 0 and
13..20 keep their previous values. -/
theorem man_reg_params_frame (input : LogiclkInput) (output : LogiclkOutput)
    (regs : Fin 21 → ℕ) (j : Fin 21) (h0 : j ≠ 0) (h13 : j ≠ 13)
    (h14 : j ≠ 14) (h15 : j ≠ 15) (h16 : j ≠ 16) (h17 : j ≠ 17)
    (h18 : j ≠ 18) (h19 : j ≠ 19) (h20 : j ≠ 20) :
    logiclk_man_reg_params input output regs j = regs j := by
  simp only [logiclk_man_reg_params]
  rw [if_neg h0, if_neg h13, if_neg h14, if_neg h15, if_neg h16, if_neg h17,
    if_neg h18, if_neg h19, if_neg h20]

/-- Frame property of logiclk_man_reg_params_id: registers other than the
channel's own pair keep their previous values. -/
theorem man_reg_params_id_frame (input : LogiclkInput)
    (output : LogiclkOutput) (id : Fin 6) (regs : Fin 21 → ℕ) (j : Fin 21)
    (hl : j ≠ pairLo id) (hh : j ≠ pairHi id) :
    (logiclk_man_reg_params_id input output id regs).2 j = regs j := by
  simp only [logiclk_man_reg_params_id]
  rw [if_neg hl, if_neg hh]

/-- Frame property of logiclk_calc_params on a non-precise channel: only
the channel's own register pair can change. -/
theorem calc_params_nonprecise_regs_frame (d : LogiclkData) (i : Fin 6)
    (hnp : (d.output i).precise = false) (j : Fin 21)
    (hjl : j ≠ pairLo (d.output i).id) (hjh : j ≠ pairHi (d.output i).id) :
    (logiclk_calc_params d i).1.man_regs j = d.man_regs j := by
  simp only [logiclk_calc_params]
  split
  · rfl
  · rw [if_neg (by simp [hnp])]
    exact man_reg_params_id_frame _ _ _ _ j hjl hjh

/-- The stacked copies are never touched by logiclk_calc_params on a
non-precise channel. -/
theorem calc_params_nonprecise_stack_frame (d : LogiclkData) (i : Fin 6)
    (hnp : (d.output i).precise = false) :
    (logiclk_calc_params d i).1.man_regs_stack = d.man_regs_stack := by
  simp only [logiclk_calc_params]
  split
  · rfl
  · rw [if_neg (by simp [hnp])]

/-- Frame property of logiclk_round_rate on a non-precise channel: the
manual registers other than the channel's own pair are unchanged, on both
the success and the rollback path. -/
theorem round_rate_nonprecise_frame (d : LogiclkData) (i : Fin 6) (rate : ℕ)
    (hnp : (d.output i).precise = false) (j : Fin 21)
    (hjl : j ≠ pairLo (d.output i).id) (hjh : j ≠ pairHi (d.output i).id) :
    (logiclk_round_rate d i rate).1.man_regs j = d.man_regs j := by
  simp only [logiclk_round_rate, logiclk_stack_push]
  split
  · exact calc_params_nonprecise_regs_frame _ i (by simp [hnp]) j
      (by simpa using hjl) (by simpa using hjh)
  · have hst := calc_params_nonprecise_stack_frame
      { d with
        output_stack := d.output i
        man_regs_stack := d.man_regs
        output := fun k =>
          if k = i then { d.output i with clkout_freq := rate }
          else d.output k }
      i (by simp [hnp])
    simp only [logiclk_stack_pop]
    exact congrFun hst j

/-- Frame property of the state change of logiclk_set_rate on a non-precise
channel: the manual registers other than the channel's own pair are
unchanged on the skip, success and rollback paths. -/
theorem set_rate_nonprecise_frame (d : LogiclkData) (i : Fin 6) (rate : ℕ)
    (hnp : (d.output i).precise = false) (j : Fin 21)
    (hjl : j ≠ pairLo (d.output i).id) (hjh : j ≠ pairHi (d.output i).id) :
    (logiclk_set_rate d i rate).1.man_regs j = d.man_regs j := by
  simp only [logiclk_set_rate, logiclk_stack_push]
  split
  · split
    · exact calc_params_nonprecise_regs_frame _ i (by simp [hnp]) j
        (by simpa using hjl) (by simpa using hjh)
    · have hst := calc_params_nonprecise_stack_frame
        { d with
          output_stack := d.output i
          man_regs_stack := d.man_regs
          output := fun k =>
            if k = i then { d.output i with clkout_freq := rate }
            else d.output k }
        i (by simp [hnp])
      simp only [logiclk_stack_pop]
      exact congrFun hst j
  · rfl

/-- Frame property of logiclk_recalc_rate: only registers 0, 13..20 and the
channel's own pair can change. -/
theorem recalc_rate_frame (d : LogiclkData) (i : Fin 6) (j : Fin 21)
    (h0 : j ≠ 0) (h13 : j ≠ 13) (h14 : j ≠ 14) (h15 : j ≠ 15) (h16 : j ≠ 16)
    (h17 : j ≠ 17) (h18 : j ≠ 18) (h19 : j ≠ 19) (h20 : j ≠ 20)
    (hjl : j ≠ pairLo (d.output i).id) (hjh : j ≠ pairHi (d.output i).id) :
    (logiclk_recalc_rate d i).1.man_regs j = d.man_regs j := by
  simp only [logiclk_recalc_rate]
  split
  · exact (man_reg_params_id_frame _ _ _ _ j (by simpa using hjl)
      (by simpa using hjh)).trans
      (man_reg_params_frame _ _ _ j h0 h13 h14 h15 h16 h17 h18 h19 h20)
  · exact (man_reg_params_id_frame _ _ _ _ j (by simpa using hjl)
      (by simpa using hjh)).trans
      (man_reg_params_frame _ _ _ j h0 h13 h14 h15 h16 h17 h18 h19 h20)

/-- C4 counterexample: a Recompute (logiclk_recalc_rate) on the non-precise
channel 1 rewrites shared register 14, because logiclk_recalc_rate calls
logiclk_man_reg_params unconditionally and the shared registers depend on
the calling channel's duty cycle (here 20% instead of the 50% of the
precise channel that last generated the image). -/
theorem recalc_rate_nonprecise_changes_shared :
    (dataC4.output 1).precise = false ∧
    (logiclk_recalc_rate dataC4 1).1.man_regs 14 ≠ dataC4.man_regs 14 := by
  constructor
  · decide
  · decide

/-- C4 (amended): a Propose (round_rate) or Commit (set_rate) on a
non-precise channel leaves every manual register other than the channel's
own pair (indices 1 + 2 id and 2 + 2 id) unchanged, shared registers 0 and
13..20 included; a Recompute (recalc_rate), however, rewrites registers 0
and 13..20 (recomputed from the input stage and the calling channel's duty
and phase) besides the channel's own pair, and leaves the rest unchanged. -/
theorem nonprecise_frame (d : LogiclkData) (i : Fin 6) (rate : ℕ)
    (hnp : (d.output i).precise = false) (j : Fin 21)
    (hjl : j ≠ pairLo (d.output i).id) (hjh : j ≠ pairHi (d.output i).id) :
    (logiclk_round_rate d i rate).1.man_regs j = d.man_regs j ∧
    (logiclk_set_rate d i rate).1.man_regs j = d.man_regs j ∧
    (j ≠ 0 → j ≠ 13 → j ≠ 14 → j ≠ 15 → j ≠ 16 → j ≠ 17 → j ≠ 18 →
      j ≠ 19 → j ≠ 20 →
      (logiclk_recalc_rate d i).1.man_regs j = d.man_regs j) :=
  ⟨round_rate_nonprecise_frame d i rate hnp j hjl hjh,
    set_rate_nonprecise_frame d i rate hnp j hjl hjh,
    fun h0 h13 h14 h15 h16 h17 h18 h19 h20 =>
      recalc_rate_frame d i j h0 h13 h14 h15 h16 h17 h18 h19 h20 hjl hjh⟩

/-- Witness for the amended C4 on channel 1 and register 5. -/
theorem nonprecise_frame_witness :
    ((dataC4.output 1).precise = false) ∧
    ((5 : Fin 21) ≠ pairLo (dataC4.output 1).id) ∧
    ((5 : Fin 21) ≠ pairHi (dataC4.output 1).id) ∧
    ((logiclk_round_rate dataC4 1 50000000).1.man_regs 5 =
        dataC4.man_regs 5 ∧
      (logiclk_set_rate dataC4 1 50000000).1.man_regs 5 =
        dataC4.man_regs 5 ∧
      ((5 : Fin 21) ≠ 0 → (5 : Fin 21) ≠ 13 → (5 : Fin 21) ≠ 14 →
        (5 : Fin 21) ≠ 15 → (5 : Fin 21) ≠ 16 → (5 : Fin 21) ≠ 17 →
        (5 : Fin 21) ≠ 18 → (5 : Fin 21) ≠ 19 → (5 : Fin 21) ≠ 20 →
        (logiclk_recalc_rate dataC4 1).1.man_regs 5 = dataC4.man_regs 5)) :=
  ⟨by decide, by decide, by decide,
    nonprecise_frame dataC4 1 50000000 (by decide) 5 (by decide) (by decide)⟩
